import Mathlib

/-!
Shallow embedding of `tractome/io.py` (path validation, CSV ingestion and
tractogram reference resolution) together with proofs about the behaviour of
`validate_path`, `read_csv` and `read_tractogram`.

Conventions of the embedding:
* The filesystem is an explicit structure `FS`: which paths exist, which are
  regular files, which are directories, the directory listings, and for each
  file the rows produced by parsing it with the `csv` module (the `csv`
  parsing itself, with its delimiter and encoding arguments, is abstracted:
  `FS.content p` is the list of rows, each a list of cell strings, that
  `csv.reader` yields for the file at `p`).
* Python strings are Lean `String`; the Python operations `str.lower`,
  `str.endswith`, string comparison for `sorted`, `os.path.join` and
  `os.path.expanduser` are implemented on the underlying character list so
  that all of them evaluate by kernel reduction.  `str.lower` is modelled on
  ASCII (`Char.toLower`), which is exact for the extensions involved.
* NumPy arrays of strings are `NDArray`: a list of rows plus an explicit
  column count (needed to state the shapes `(0, 3)` and `(0, 0)` of the empty
  result).  `np.asarray` on a ragged list of rows raises, modelled by the
  error `raggedArray`; `np.concatenate` on chunks of unequal width raises,
  modelled by `concatMismatch`.
* Exceptions are the `PyErr` type, one constructor per raise site reachable
  from the modelled code.
-/

namespace Tractome

deriving instance DecidableEq for Except

/-- Value stored in one cell of a row produced by `csv.DictReader` or
`csv.reader`: a cell string, the Python `None` used as `restval` padding for
short rows, or the list of leftover fields stored under the `restkey` for long
rows. -/
inductive CSVCell where
  | str (s : String)
  | pynone
  | rest (l : List String)
deriving DecidableEq

/-- Error raised by the modelled code, one constructor per raise site:
`notFound` is the `FileNotFoundError` of `validate_path` (spec: NotFoundError);
`emptyInput` is the `ValueError` for a directory without CSV files (spec:
EmptyInputError); `invalidFormat` is the `ValueError` for a file without a
`.csv` extension (spec: InvalidFormatError); `refRequired` is the `ValueError`
of `read_tractogram` when no reference is given; `raggedArray` is the error
`np.asarray` raises on rows of unequal length; `concatMismatch` is the
`ValueError` `np.concatenate` raises on chunks with unequal column counts. -/
inductive PyErr where
  | notFound (path : String)
  | emptyInput (dir : String)
  | invalidFormat (path : String)
  | refRequired
  | concatMismatch
  | raggedArray
deriving DecidableEq

/-- Model of the filesystem state during one call: the home directory used by
`os.path.expanduser`, the predicates `os.path.exists`, `os.path.isfile` and
`os.path.isdir`, the listing `os.listdir`, and for every file the rows that
the `csv` module parses from its text. -/
structure FS where
  home : String
  pathExists : String → Bool
  isFile : String → Bool
  isDir : String → Bool
  listDir : String → List String
  content : String → List (List String)

/-- Python `str.lower`, modelled on ASCII characters. -/
def strLower (s : String) : String := ⟨s.data.map Char.toLower⟩

/-- Python `str.endswith` for a single suffix. -/
def strEndsWith (s suffix : String) : Bool := suffix.data.isSuffixOf s.data

/-- Boolean code point comparison of strings, the order used by Python
`sorted` on `str`. -/
def strLe (a b : String) : Bool := decide (a.data ≤ b.data)

/-- Propositional form of `strLe`, used as the sorting relation. -/
def strLeR (a b : String) : Prop := strLe a b = true

instance : DecidableRel strLeR := fun a b => inferInstanceAs (Decidable (strLe a b = true))

instance : IsTotal String strLeR := ⟨fun a b => by
  simp only [strLeR, strLe, decide_eq_true_eq]
  exact le_total a.data b.data⟩

instance : IsTrans String strLeR := ⟨fun a b c h1 h2 => by
  simp only [strLeR, strLe, decide_eq_true_eq] at *
  exact le_trans h1 h2⟩

instance : IsAntisymm String strLeR := ⟨fun a b h1 h2 => by
  simp only [strLeR, strLe, decide_eq_true_eq] at h1 h2
  have h := le_antisymm h1 h2
  cases a; cases b; exact congrArg String.mk h⟩

/-- Python `os.path.join dir name` for a plain (relative, separator free)
entry name as returned by `os.listdir`. -/
def joinPath (d name : String) : String := ⟨d.data ++ '/' :: name.data⟩

/-- Python `os.path.expanduser`: a leading `~` or `~/` is replaced by the home
directory; other paths (including `~user` forms, modelling a single user
environment) are returned unchanged. -/
def expanduser (home path : String) : String :=
  if path = "~" then home
  else if ['~', '/'].isPrefixOf path.data then ⟨home.data ++ path.data.drop 1⟩
  else path

/-- Embedding of `validate_path` (io.py lines 12 to 34): expand the user path,
return it if it exists and is a regular file, otherwise raise
`FileNotFoundError`. -/
def validate_path (fs : FS) (path : String) : Except PyErr String :=
  if fs.pathExists (expanduser fs.home path) && fs.isFile (expanduser fs.home path) then
    .ok (expanduser fs.home path)
  else .error (.notFound (expanduser fs.home path))

/-- Insertion into a Python `dict` modelled as an association list in key
insertion order: an existing key keeps its position and gets the new value, a
new key is appended.  Keys are `Option String`; `none` stands for the Python
`None` used by `csv.DictReader` as its `restkey`. -/
def dictInsert (d : List (Option String × CSVCell)) (k : Option String)
    (v : CSVCell) : List (Option String × CSVCell) :=
  if d.any (fun p => p.1 == k) then d.map (fun p => if p.1 == k then (k, v) else p)
  else d ++ [(k, v)]

/-- Row dictionary built by `csv.DictReader.__next__` for one data row:
`dict(zip(fieldnames, row))`, then the leftover fields under the `restkey`
`None` when the row is longer than the header, or `None` values for the
missing keys when it is shorter. -/
def dictReaderRow (fieldnames row : List String) :
    List (Option String × CSVCell) :=
  let d := (List.zip fieldnames row).foldl
    (fun d kv => dictInsert d (some kv.1) (.str kv.2)) []
  if fieldnames.length < row.length then
    dictInsert d none (.rest (row.drop fieldnames.length))
  else if row.length < fieldnames.length then
    (fieldnames.drop row.length).foldl (fun d k => dictInsert d (some k) .pynone) d
  else d

/-- Embedding of `[row[key] for key in row]` (io.py line 166): the values of
the row dictionary in key insertion order. -/
def dictRowValues (fieldnames row : List String) : List CSVCell :=
  (dictReaderRow fieldnames row).map Prod.snd

/-- Embedding of the per file parsing of `read_csv` (io.py lines 164 to 168)
before `np.asarray`: with a header, `csv.DictReader` takes the first row as
the field names, skips blank rows, and turns every further row into its value
list; without a header, `csv.reader` yields the rows as they are, every cell a
string. -/
def parseChunk (has_header : Bool) (rows : List (List String)) :
    List (List CSVCell) :=
  if has_header then
    match rows with
    | [] => []
    | header :: dataRows =>
      (dataRows.filter (fun r => !r.isEmpty)).map (dictRowValues header)
  else rows.map (fun r => r.map CSVCell.str)

/-- Row lengths check of `np.asarray`: a list of rows builds a 2 dimensional
array exactly when all rows have equal length. -/
def isRectangular : List (List CSVCell) → Bool
  | [] => true
  | r :: rs => rs.all (fun s => s.length == r.length)

/-- Embedding of `np.asarray` on a list of rows: the 2 dimensional array when
the rows are rectangular, an error on ragged input. -/
def asarray (rows : List (List CSVCell)) : Except PyErr (List (List CSVCell)) :=
  if isRectangular rows then .ok rows else .error .raggedArray

/-- Total number of cells, the `size` attribute of the chunk array. -/
def chunkSize (rows : List (List CSVCell)) : Nat := (rows.map List.length).sum

/-- Column count of a chunk, read off its first row. -/
def chunkWidth : List (List CSVCell) → Nat
  | [] => 0
  | r :: _ => r.length

/-- Embedding of the chunk loop of `read_csv` (io.py lines 161 to 171): for
each path in order, parse the file and build its array (propagating the
`np.asarray` error), skip chunks of size zero, and keep the rest in file
order. -/
def collectChunks (content : String → List (List String)) (has_header : Bool) :
    List String → Except PyErr (List (List (List CSVCell)))
  | [] => .ok []
  | p :: ps =>
    match asarray (parseChunk has_header (content p)) with
    | .error e => .error e
    | .ok chunk =>
      match collectChunks content has_header ps with
      | .error e => .error e
      | .ok chunks =>
        if chunkSize chunk = 0 then .ok chunks else .ok (chunk :: chunks)

/-- Chunks that the loop of `read_csv` keeps when every parse is rectangular:
the per file chunks in file order with the size zero ones dropped. -/
def keptChunks (content : String → List (List String)) (has_header : Bool)
    (ps : List String) : List (List (List CSVCell)) :=
  (ps.map (fun p => parseChunk has_header (content p))).filter
    (fun c => chunkSize c != 0)

/-- NumPy array of cells: the rows together with the explicit column count of
the shape (the row count is the length of `rows`). -/
structure NDArray where
  rows : List (List CSVCell)
  ncols : Nat
deriving DecidableEq

/-- Embedding of `np.concatenate(data_chunks, axis=0)` on nonempty 2
dimensional chunks: all chunks must agree on the column count, the result
stacks their rows; otherwise `ValueError`.  The empty chunk list also raises
`ValueError` in NumPy (it is unreachable from `read_csv`, which returns early
when no chunk was kept). -/
def npConcatenate (chunks : List (List (List CSVCell))) : Except PyErr NDArray :=
  match chunks with
  | [] => .error .concatMismatch
  | c :: cs =>
    if cs.all (fun c2 => chunkWidth c2 == chunkWidth c) then
      .ok ⟨(c :: cs).flatten, chunkWidth c⟩
    else .error .concatMismatch

/-- Embedding of `data[:, :3]` (io.py line 177): the first three columns. -/
def sliceCoords (a : NDArray) : NDArray :=
  ⟨a.rows.map (fun r => r.take 3), min a.ncols 3⟩

/-- Embedding of `data[:, 3:]` (io.py line 177): the remaining columns. -/
def sliceAttrs (a : NDArray) : NDArray :=
  ⟨a.rows.map (fun r => r.drop 3), a.ncols - 3⟩

/-- Embedding of the directory branch collection (io.py lines 145 to 150):
the entries of the directory that are regular files with a case insensitive
`.csv` extension, joined to the directory path and sorted lexicographically
(Python `sorted` runs on the joined paths). -/
def csvPathsOf (fs : FS) (resolved_path : String) : List String :=
  List.insertionSort strLeR
    (((fs.listDir resolved_path).filter (fun name =>
        fs.isFile (joinPath resolved_path name)
          && strEndsWith (strLower name) ".csv")).map
      (joinPath resolved_path))

/-- Embedding of the path resolution of `read_csv` (io.py lines 143 to 159):
for a directory, the sorted CSV paths inside it (`ValueError` when there is
none); otherwise the validated single path, which must have a case
insensitive `.csv` extension (`ValueError` when not). -/
def resolvePaths (fs : FS) (resolved_path : String) : Except PyErr (List String) :=
  if fs.isDir resolved_path then
    if (csvPathsOf fs resolved_path).isEmpty then .error (.emptyInput resolved_path)
    else .ok (csvPathsOf fs resolved_path)
  else
    match validate_path fs resolved_path with
    | .error e => .error e
    | .ok validated_path =>
      if strEndsWith (strLower validated_path) ".csv" then .ok [validated_path]
      else .error (.invalidFormat validated_path)

/-- Embedding of `read_csv` (io.py lines 122 to 177): expand the path, resolve
the list of CSV files, parse each into a chunk skipping empty ones, return
empty arrays of shape `(0, 3)` and `(0, 0)` when nothing was kept, otherwise
concatenate and split into the first three columns and the rest. -/
def read_csv (fs : FS) (file_path : String) (has_header : Bool) :
    Except PyErr (NDArray × NDArray) :=
  match resolvePaths fs (expanduser fs.home file_path) with
  | .error e => .error e
  | .ok csv_paths =>
    match collectChunks fs.content has_header csv_paths with
    | .error e => .error e
    | .ok data_chunks =>
      if data_chunks.isEmpty then .ok (⟨[], 3⟩, ⟨[], 0⟩)
      else
        match npConcatenate data_chunks with
        | .error e => .error e
        | .ok data => .ok (sliceCoords data, sliceAttrs data)

/-- Embedding of `read_tractogram` (io.py lines 37 to 63) up to the delegated
`load_tractogram` call: validate the path, then determine the reference that
is passed on to the loader.  With `reference=None` the reference defaults to
`"same"` for paths ending in `.trk` or `.trx` and otherwise a `ValueError` is
raised before any loading.  The result is the pair (validated path,
reference) handed to the external loader. -/
def read_tractogram_ref (fs : FS) (file_path : String)
    (reference : Option String) : Except PyErr (String × String) :=
  match validate_path fs file_path with
  | .error e => .error e
  | .ok validated_path =>
    match reference with
    | none =>
      if strEndsWith validated_path ".trk" || strEndsWith validated_path ".trx" then
        .ok (validated_path, "same")
      else .error .refRequired
    | some r => .ok (validated_path, r)

/-- Coherence of a filesystem snapshot: files and directories exist, and no
path is both a regular file and a directory. -/
def FS.Coherent (fs : FS) : Prop :=
  (∀ p, fs.isFile p = true → fs.pathExists p = true) ∧
  (∀ p, fs.isDir p = true → fs.pathExists p = true) ∧
  (∀ p, ¬(fs.isFile p = true ∧ fs.isDir p = true))

/-- Formalisation of the vocabulary of the specification sentence about
numeric output: a cell holds a numeric value when it is a cell string made of
digits and the usual numeric literal characters. -/
def isNumericChar (c : Char) : Bool :=
  c.isDigit || c == '.' || c == '-' || c == '+' || c == 'e' || c == 'E'

/-- Numeric value test for a cell, formalising the word numeric of the
specification: a nonempty cell string all of whose characters belong to a
numeric literal. -/
def CSVCell.isNumericLiteral : CSVCell → Bool
  | .str s => !s.data.isEmpty && s.data.all isNumericChar
  | _ => false

/-- Snapshot identical to `fs` except that the listing of directory `d` is
replaced by `l`; used to state that the result cannot depend on the order in
which the operating system produces a directory listing. -/
def FS.withListing (fs : FS) (d : String) (l : List String) : FS where
  home := fs.home
  pathExists := fs.pathExists
  isFile := fs.isFile
  isDir := fs.isDir
  listDir := fun q => if q = d then l else fs.listDir q
  content := fs.content

/-- Concrete snapshot: directory `/data` listing `b.csv`, `notes.txt` and
`a.csv` (deliberately in unsorted order), where the two CSV files each hold an
`x,y,z` header and one data row. -/
def fsAB : FS where
  home := "/home/u"
  pathExists := fun p =>
    p == "/data" || p == "/data/a.csv" || p == "/data/b.csv" || p == "/data/notes.txt"
  isFile := fun p =>
    p == "/data/a.csv" || p == "/data/b.csv" || p == "/data/notes.txt"
  isDir := fun p => p == "/data"
  listDir := fun p => if p == "/data" then ["b.csv", "notes.txt", "a.csv"] else []
  content := fun p =>
    if p == "/data/a.csv" then [["x", "y", "z"], ["1", "2", "3"]]
    else if p == "/data/b.csv" then [["x", "y", "z"], ["4", "5", "6"]]
    else []

/-- Concrete snapshot of a filesystem on which nothing exists. -/
def fsNone : FS where
  home := "/home/u"
  pathExists := fun _ => false
  isFile := fun _ => false
  isDir := fun _ => false
  listDir := fun _ => []
  content := fun _ => []

/-- Concrete snapshot: `/data` is an existing empty directory. -/
def fsEmptyDir : FS where
  home := "/home/u"
  pathExists := fun p => p == "/data"
  isFile := fun _ => false
  isDir := fun p => p == "/data"
  listDir := fun _ => []
  content := fun _ => []

/-- Concrete snapshot: a single regular file `/f.csv` whose parsed rows are an
`x,y,z` header and one data row of non numeric words. -/
def fsFoo : FS where
  home := "/home/u"
  pathExists := fun p => p == "/f.csv"
  isFile := fun p => p == "/f.csv"
  isDir := fun _ => false
  listDir := fun _ => []
  content := fun p => if p == "/f.csv" then [["x", "y", "z"], ["foo", "bar", "baz"]] else []

/-- Concrete snapshot: a single regular file with upper case extension
`/data/points.CSV`, holding an `x,y,z` header and one data row. -/
def fsUpper : FS where
  home := "/home/u"
  pathExists := fun p => p == "/data/points.CSV"
  isFile := fun p => p == "/data/points.CSV"
  isDir := fun _ => false
  listDir := fun _ => []
  content := fun p =>
    if p == "/data/points.CSV" then [["x", "y", "z"], ["7", "8", "9"]] else []

/-- Concrete snapshot: directory `/data` with a single CSV file that holds
only a header row and therefore yields zero data rows. -/
def fsHeaderOnly : FS where
  home := "/home/u"
  pathExists := fun p => p == "/data" || p == "/data/e.csv"
  isFile := fun p => p == "/data/e.csv"
  isDir := fun p => p == "/data"
  listDir := fun p => if p == "/data" then ["e.csv"] else []
  content := fun p => if p == "/data/e.csv" then [["x", "y", "z"]] else []

/-- Concrete snapshot: directory `/data` with two CSV files whose chunks have
different column counts (three and four). -/
def fsMix : FS where
  home := "/home/u"
  pathExists := fun p => p == "/data" || p == "/data/a.csv" || p == "/data/b.csv"
  isFile := fun p => p == "/data/a.csv" || p == "/data/b.csv"
  isDir := fun p => p == "/data"
  listDir := fun p => if p == "/data" then ["a.csv", "b.csv"] else []
  content := fun p =>
    if p == "/data/a.csv" then [["x", "y", "z"], ["1", "2", "3"]]
    else if p == "/data/b.csv" then [["p", "q", "r", "s"], ["4", "5", "6", "7"]]
    else []

/-- Concrete snapshot: two tractogram files, one with a `.trk` extension and
one with a `.nii` extension. -/
def fsTrk : FS where
  home := "/home/u"
  pathExists := fun p => p == "/t.trk" || p == "/t.nii"
  isFile := fun p => p == "/t.trk" || p == "/t.nii"
  isDir := fun _ => false
  listDir := fun _ => []
  content := fun _ => []

/-! Helper lemmas. -/

theorem data_mk (l : List Char) : (⟨l⟩ : String).data = l := rfl

theorem isPrefixOf_pair_iff (c d : Char) (l : List Char) :
    ([c, d].isPrefixOf l) = true ↔ ∃ t, l = c :: d :: t := by
  cases l with
  | nil => simp [List.isPrefixOf]
  | cons a as =>
    cases as with
    | nil => simp [List.isPrefixOf]
    | cons b bs =>
      simp only [List.isPrefixOf, Bool.and_eq_true, beq_iff_eq, List.cons.injEq]
      constructor
      · rintro ⟨h1, h2, -⟩
        exact ⟨bs, h1.symm, h2.symm, rfl⟩
      · rintro ⟨t, ht1, ht2, ht3⟩
        exact ⟨ht1.symm, ht2.symm, by simp [List.isPrefixOf]⟩

theorem tilde_head_append (home : String) (hh : '~' ∉ home.data) (t s : List Char) :
    home.data ++ '/' :: t ≠ '~' :: s := by
  intro h
  cases hhd : home.data with
  | nil =>
    rw [hhd] at h
    simp only [List.nil_append, List.cons.injEq] at h
    exact absurd h.1 (by decide)
  | cons a as =>
    rw [hhd] at h
    simp only [List.cons_append, List.cons.injEq] at h
    apply hh
    rw [hhd, h.1]
    exact List.mem_cons_self _ _

theorem expanduser_no_tilde (home q : String) (hq : ∀ s, q.data ≠ '~' :: s) :
    expanduser home q = q := by
  have h1 : q ≠ "~" := by
    intro h
    exact hq [] (congrArg String.data h)
  have h2 : ¬ (['~', '/'].isPrefixOf q.data = true) := by
    intro h
    obtain ⟨t, ht⟩ := (isPrefixOf_pair_iff '~' '/' q.data).1 h
    exact hq ('/' :: t) ht
  unfold expanduser
  rw [if_neg h1, if_neg h2]

theorem expanduser_idem (home p : String) (hh : '~' ∉ home.data) :
    expanduser home (expanduser home p) = expanduser home p := by
  by_cases h1 : p = "~"
  · subst h1
    have he : expanduser home "~" = home := if_pos rfl
    rw [he]
    apply expanduser_no_tilde
    intro s h
    cases hd : home.data with
    | nil => rw [hd] at h; exact List.noConfusion h
    | cons a as =>
      rw [hd] at h
      injection h with hhead htail
      apply hh
      rw [hd, ← hhead]
      exact List.mem_cons_self _ _
  · by_cases h2 : ['~', '/'].isPrefixOf p.data = true
    · obtain ⟨t, ht⟩ := (isPrefixOf_pair_iff '~' '/' p.data).1 h2
      have he : expanduser home p = ⟨home.data ++ p.data.drop 1⟩ := by
        unfold expanduser
        rw [if_neg h1, if_pos h2]
      rw [he]
      apply expanduser_no_tilde
      intro s h
      rw [data_mk, ht] at h
      exact tilde_head_append home hh t s h
    · have he : expanduser home p = p := by
        unfold expanduser
        rw [if_neg h1, if_neg h2]
      rw [he, he]

theorem validate_path_ok (fs : FS) (path : String)
    (hex : fs.pathExists (expanduser fs.home path) = true)
    (hf : fs.isFile (expanduser fs.home path) = true) :
    validate_path fs path = .ok (expanduser fs.home path) := by
  unfold validate_path
  rw [hex, hf]
  rfl

theorem validate_path_err (fs : FS) (path : String)
    (h : ¬(fs.pathExists (expanduser fs.home path) = true ∧
      fs.isFile (expanduser fs.home path) = true)) :
    validate_path fs path = .error (.notFound (expanduser fs.home path)) := by
  have hb : ¬((fs.pathExists (expanduser fs.home path)
      && fs.isFile (expanduser fs.home path)) = true) := by
    rw [Bool.and_eq_true]
    exact h
  unfold validate_path
  rw [if_neg hb]

theorem validate_path_expanded_ok (fs : FS) (path : String) (hh : '~' ∉ fs.home.data)
    (hex : fs.pathExists (expanduser fs.home path) = true)
    (hf : fs.isFile (expanduser fs.home path) = true) :
    validate_path fs (expanduser fs.home path) = .ok (expanduser fs.home path) := by
  unfold validate_path
  rw [expanduser_idem fs.home path hh, hex, hf]
  rfl

theorem insertionSort_strLeR_eq_of_perm {l1 l2 : List String} (h : l1.Perm l2) :
    List.insertionSort strLeR l1 = List.insertionSort strLeR l2 :=
  List.eq_of_perm_of_sorted
    ((List.perm_insertionSort _ _).trans (h.trans (List.perm_insertionSort _ _).symm))
    (List.sorted_insertionSort _ _) (List.sorted_insertionSort _ _)

theorem collectChunks_eq_keptChunks (content : String → List (List String))
    (hdr : Bool) (ps : List String)
    (h : ∀ p ∈ ps, isRectangular (parseChunk hdr (content p)) = true) :
    collectChunks content hdr ps = .ok (keptChunks content hdr ps) := by
  induction ps with
  | nil => rfl
  | cons p ps ih =>
    have hp := h p (List.mem_cons_self p ps)
    have hrest : collectChunks content hdr ps = .ok (keptChunks content hdr ps) :=
      ih (fun q hq => h q (List.mem_cons_of_mem p hq))
    by_cases hz : chunkSize (parseChunk hdr (content p)) = 0
    · simp [collectChunks, asarray, hp, hrest, keptChunks, hz]
    · simp [collectChunks, asarray, hp, hrest, keptChunks, hz]

theorem resolvePaths_dir_ok (fs : FS) (rp : String) (hdir : fs.isDir rp = true)
    (hne : csvPathsOf fs rp ≠ []) :
    resolvePaths fs rp = .ok (csvPathsOf fs rp) := by
  have he : (csvPathsOf fs rp).isEmpty = false := by
    cases hcp : csvPathsOf fs rp with
    | nil => exact absurd hcp hne
    | cons a l => rfl
  unfold resolvePaths
  simp [hdir, he]

theorem resolvePaths_dir_empty (fs : FS) (rp : String) (hdir : fs.isDir rp = true)
    (h : csvPathsOf fs rp = []) :
    resolvePaths fs rp = .error (.emptyInput rp) := by
  unfold resolvePaths
  simp [hdir, h]

theorem resolvePaths_file_ok (fs : FS) (rp : String) (hnd : fs.isDir rp = false)
    (hv : validate_path fs rp = .ok rp)
    (hcsv : strEndsWith (strLower rp) ".csv" = true) :
    resolvePaths fs rp = .ok [rp] := by
  unfold resolvePaths
  simp [hnd, hv, hcsv]

theorem resolvePaths_file_badext (fs : FS) (rp : String) (hnd : fs.isDir rp = false)
    (hv : validate_path fs rp = .ok rp)
    (hcsv : strEndsWith (strLower rp) ".csv" = false) :
    resolvePaths fs rp = .error (.invalidFormat rp) := by
  unfold resolvePaths
  simp [hnd, hv, hcsv]

theorem read_csv_err_resolve (fs : FS) (path : String) (hdr : Bool) (e : PyErr)
    (h : resolvePaths fs (expanduser fs.home path) = .error e) :
    read_csv fs path hdr = .error e := by
  unfold read_csv
  rw [h]

theorem npConcatenate_cons_ok (c : List (List CSVCell))
    (cs : List (List (List CSVCell)))
    (h : ∀ c2 ∈ cs, chunkWidth c2 = chunkWidth c) :
    npConcatenate (c :: cs) = .ok ⟨(c :: cs).flatten, chunkWidth c⟩ := by
  have hall : cs.all (fun c2 => chunkWidth c2 == chunkWidth c) = true := by
    rw [List.all_eq_true]
    intro c2 hc2
    exact beq_iff_eq.2 (h c2 hc2)
  simp only [npConcatenate]
  rw [if_pos hall]

theorem npConcatenate_cons_err (c : List (List CSVCell))
    (cs : List (List (List CSVCell)))
    (h : ∃ c2 ∈ cs, chunkWidth c2 ≠ chunkWidth c) :
    npConcatenate (c :: cs) = .error .concatMismatch := by
  have hall : ¬ (cs.all (fun c2 => chunkWidth c2 == chunkWidth c) = true) := by
    rw [List.all_eq_true]
    intro hall
    obtain ⟨c2, hc2, hne⟩ := h
    exact hne (beq_iff_eq.1 (hall c2 hc2))
  simp only [npConcatenate]
  rw [if_neg hall]

theorem read_csv_single_file (fs : FS) (path : String) (hdr : Bool)
    (hh : '~' ∉ fs.home.data)
    (hnd : fs.isDir (expanduser fs.home path) = false)
    (hex : fs.pathExists (expanduser fs.home path) = true)
    (hf : fs.isFile (expanduser fs.home path) = true)
    (hcsv : strEndsWith (strLower (expanduser fs.home path)) ".csv" = true) :
    read_csv fs path hdr =
      match asarray (parseChunk hdr (fs.content (expanduser fs.home path))) with
      | .error e => .error e
      | .ok chunk =>
        if chunkSize chunk = 0 then .ok (⟨[], 3⟩, ⟨[], 0⟩)
        else .ok (sliceCoords ⟨chunk, chunkWidth chunk⟩,
          sliceAttrs ⟨chunk, chunkWidth chunk⟩) := by
  have hv := validate_path_expanded_ok fs path hh hex hf
  have hrp := resolvePaths_file_ok fs (expanduser fs.home path) hnd hv hcsv
  unfold read_csv
  rw [hrp]
  cases ha : asarray (parseChunk hdr (fs.content (expanduser fs.home path))) with
  | error e => simp [collectChunks, ha]
  | ok chunk =>
    by_cases hz : chunkSize chunk = 0
    · simp [collectChunks, ha, hz]
    · simp [collectChunks, ha, hz, npConcatenate, sliceCoords, sliceAttrs]

theorem asarray_ok (rows : List (List CSVCell)) (h : isRectangular rows = true) :
    asarray rows = .ok rows := by
  unfold asarray
  rw [if_pos h]

theorem asarray_error_eq (rows : List (List CSVCell)) (e : PyErr)
    (h : asarray rows = .error e) : e = .raggedArray := by
  unfold asarray at h
  by_cases hr : isRectangular rows = true
  · rw [if_pos hr] at h
    exact Except.noConfusion h
  · rw [if_neg hr] at h
    injection h with h
    exact h.symm

theorem read_csv_single_file_err (fs : FS) (path : String) (hdr : Bool)
    (hh : '~' ∉ fs.home.data)
    (hnd : fs.isDir (expanduser fs.home path) = false)
    (hex : fs.pathExists (expanduser fs.home path) = true)
    (hf : fs.isFile (expanduser fs.home path) = true)
    (hcsv : strEndsWith (strLower (expanduser fs.home path)) ".csv" = true)
    (e : PyErr)
    (ha : asarray (parseChunk hdr (fs.content (expanduser fs.home path))) = .error e) :
    read_csv fs path hdr = .error e := by
  rw [read_csv_single_file fs path hdr hh hnd hex hf hcsv, ha]

theorem read_csv_single_file_ok (fs : FS) (path : String) (hdr : Bool)
    (hh : '~' ∉ fs.home.data)
    (hnd : fs.isDir (expanduser fs.home path) = false)
    (hex : fs.pathExists (expanduser fs.home path) = true)
    (hf : fs.isFile (expanduser fs.home path) = true)
    (hcsv : strEndsWith (strLower (expanduser fs.home path)) ".csv" = true)
    (chunk : List (List CSVCell))
    (ha : asarray (parseChunk hdr (fs.content (expanduser fs.home path))) = .ok chunk) :
    read_csv fs path hdr =
      if chunkSize chunk = 0 then .ok (⟨[], 3⟩, ⟨[], 0⟩)
      else .ok (sliceCoords ⟨chunk, chunkWidth chunk⟩,
        sliceAttrs ⟨chunk, chunkWidth chunk⟩) := by
  rw [read_csv_single_file fs path hdr hh hnd hex hf hcsv, ha]

theorem read_csv_single_csv_no_invalidFormat (fs : FS) (path : String) (hdr : Bool)
    (hh : '~' ∉ fs.home.data)
    (hnd : fs.isDir (expanduser fs.home path) = false)
    (hex : fs.pathExists (expanduser fs.home path) = true)
    (hf : fs.isFile (expanduser fs.home path) = true)
    (hcsv : strEndsWith (strLower (expanduser fs.home path)) ".csv" = true) :
    ∀ q, read_csv fs path hdr ≠ .error (.invalidFormat q) := by
  intro q
  cases ha : asarray (parseChunk hdr (fs.content (expanduser fs.home path))) with
  | error e =>
    rw [read_csv_single_file_err fs path hdr hh hnd hex hf hcsv e ha,
      asarray_error_eq _ e ha]
    intro hc
    injection hc with hc
    exact PyErr.noConfusion hc
  | ok chunk =>
    rw [read_csv_single_file_ok fs path hdr hh hnd hex hf hcsv chunk ha]
    by_cases hz : chunkSize chunk = 0
    · rw [if_pos hz]
      intro hc
      exact Except.noConfusion hc
    · rw [if_neg hz]
      intro hc
      exact Except.noConfusion hc

theorem read_csv_dir_eval (fs : FS) (dpath : String) (hdr : Bool)
    (hdir : fs.isDir (expanduser fs.home dpath) = true)
    (hne : csvPathsOf fs (expanduser fs.home dpath) ≠ [])
    (hrect : ∀ p ∈ csvPathsOf fs (expanduser fs.home dpath),
      isRectangular (parseChunk hdr (fs.content p)) = true) :
    read_csv fs dpath hdr =
      match keptChunks fs.content hdr (csvPathsOf fs (expanduser fs.home dpath)) with
      | [] => .ok (⟨[], 3⟩, ⟨[], 0⟩)
      | c :: cs =>
        match npConcatenate (c :: cs) with
        | .error e => .error e
        | .ok data => .ok (sliceCoords data, sliceAttrs data) := by
  simp only [read_csv, resolvePaths_dir_ok fs _ hdir hne,
    collectChunks_eq_keptChunks fs.content hdr _ hrect]
  cases hk : keptChunks fs.content hdr (csvPathsOf fs (expanduser fs.home dpath)) with
  | nil => rfl
  | cons c cs => rfl

theorem read_csv_dir_nonempty (fs : FS) (dpath : String) (hdr : Bool)
    (hdir : fs.isDir (expanduser fs.home dpath) = true)
    (hne : csvPathsOf fs (expanduser fs.home dpath) ≠ [])
    (hrect : ∀ p ∈ csvPathsOf fs (expanduser fs.home dpath),
      isRectangular (parseChunk hdr (fs.content p)) = true)
    (c : List (List CSVCell)) (cs : List (List (List CSVCell)))
    (hk : keptChunks fs.content hdr (csvPathsOf fs (expanduser fs.home dpath))
      = c :: cs) :
    read_csv fs dpath hdr =
      match npConcatenate (c :: cs) with
      | .error e => .error e
      | .ok data => .ok (sliceCoords data, sliceAttrs data) := by
  rw [read_csv_dir_eval fs dpath hdr hdir hne hrect, hk]

theorem withListing_home (fs : FS) (d : String) (l : List String) :
    (fs.withListing d l).home = fs.home := rfl

theorem withListing_pathExists (fs : FS) (d : String) (l : List String) :
    (fs.withListing d l).pathExists = fs.pathExists := rfl

theorem withListing_isFile (fs : FS) (d : String) (l : List String) :
    (fs.withListing d l).isFile = fs.isFile := rfl

theorem withListing_isDir (fs : FS) (d : String) (l : List String) :
    (fs.withListing d l).isDir = fs.isDir := rfl

theorem withListing_content (fs : FS) (d : String) (l : List String) :
    (fs.withListing d l).content = fs.content := rfl

theorem asarray_ok_inv (rows chunk : List (List CSVCell))
    (h : asarray rows = .ok chunk) :
    isRectangular rows = true ∧ chunk = rows := by
  unfold asarray at h
  by_cases hr : isRectangular rows = true
  · rw [if_pos hr] at h
    injection h with h
    exact ⟨hr, h.symm⟩
  · rw [if_neg hr] at h
    exact Except.noConfusion h

theorem npConcatenate_ok_inv (chunks : List (List (List CSVCell)))
    (data : NDArray) (h : npConcatenate chunks = .ok data) :
    data.rows = chunks.flatten := by
  cases chunks with
  | nil => simp [npConcatenate] at h
  | cons c cs =>
    simp only [npConcatenate] at h
    by_cases hall : (cs.all fun c2 => chunkWidth c2 == chunkWidth c) = true
    · rw [if_pos hall] at h
      injection h with h
      rw [← h]
    · rw [if_neg hall] at h
      exact Except.noConfusion h

theorem collectChunks_ok_inv (content : String → List (List String)) (hdr : Bool) :
    ∀ (ps : List String) (chunks : List (List (List CSVCell))),
    collectChunks content hdr ps = .ok chunks →
    (∀ p ∈ ps, isRectangular (parseChunk hdr (content p)) = true) ∧
    chunks = keptChunks content hdr ps := by
  intro ps
  induction ps with
  | nil =>
    intro chunks h
    simp only [collectChunks] at h
    injection h with h
    exact ⟨fun p hp => (List.not_mem_nil p hp).elim, h.symm⟩
  | cons p ps ih =>
    intro chunks h
    cases ha : asarray (parseChunk hdr (content p)) with
    | error e => simp [collectChunks, ha] at h
    | ok chunk =>
      obtain ⟨hrect, hcheq⟩ := asarray_ok_inv _ _ ha
      cases hc : collectChunks content hdr ps with
      | error e => simp [collectChunks, ha, hc] at h
      | ok chunks2 =>
        obtain ⟨hrest, hkept⟩ := ih chunks2 hc
        simp only [collectChunks, ha, hc] at h
        constructor
        · intro q hq
          rcases List.mem_cons.1 hq with rfl | hq2
          · exact hrect
          · exact hrest q hq2
        · by_cases hz : chunkSize chunk = 0
          · rw [if_pos hz] at h
            injection h with h
            rw [← h, hkept]
            unfold keptChunks
            rw [List.map_cons, List.filter_cons]
            rw [hcheq] at hz
            simp [hz]
          · rw [if_neg hz] at h
            injection h with h
            rw [← h, hkept, hcheq]
            unfold keptChunks
            rw [List.map_cons, List.filter_cons]
            rw [hcheq] at hz
            simp [hz]

theorem dictInsert_snd_mem (d : List (Option String × CSVCell))
    (k : Option String) (v c : CSVCell)
    (h : c ∈ (dictInsert d k v).map Prod.snd) :
    c ∈ d.map Prod.snd ∨ c = v := by
  unfold dictInsert at h
  by_cases hk : d.any (fun p => p.1 == k) = true
  · rw [if_pos hk] at h
    simp only [List.map_map, List.mem_map, Function.comp] at h
    obtain ⟨p, hp, hc⟩ := h
    by_cases hpk : (p.1 == k) = true
    · rw [if_pos hpk] at hc
      exact Or.inr hc.symm
    · rw [if_neg hpk] at hc
      exact Or.inl (List.mem_map.2 ⟨p, hp, hc⟩)
  · rw [if_neg hk] at h
    rw [List.map_append] at h
    rcases List.mem_append.1 h with h | h
    · exact Or.inl h
    · right
      simpa using h

theorem foldl_dictInsert_str_mem (P : CSVCell → Prop) :
    ∀ (l : List (String × String)) (d : List (Option String × CSVCell)),
    (∀ c ∈ d.map Prod.snd, P c) → (∀ kv ∈ l, P (.str kv.2)) →
    ∀ c ∈ (l.foldl (fun d kv => dictInsert d (some kv.1) (.str kv.2)) d).map
      Prod.snd, P c := by
  intro l
  induction l with
  | nil => exact fun d hd _ c hc => hd c hc
  | cons kv l ih =>
    intro d hd hl c hc
    refine ih (dictInsert d (some kv.1) (.str kv.2)) ?_
      (fun kv2 h2 => hl kv2 (List.mem_cons_of_mem _ h2)) c hc
    intro c2 hc2
    rcases dictInsert_snd_mem d _ _ c2 hc2 with h | h
    · exact hd c2 h
    · rw [h]
      exact hl kv (List.mem_cons_self _ _)

theorem foldl_dictInsert_pynone_mem (P : CSVCell → Prop) (hP : P .pynone) :
    ∀ (l : List String) (d : List (Option String × CSVCell)),
    (∀ c ∈ d.map Prod.snd, P c) →
    ∀ c ∈ (l.foldl (fun d k => dictInsert d (some k) .pynone) d).map Prod.snd,
      P c := by
  intro l
  induction l with
  | nil => exact fun d hd c hc => hd c hc
  | cons k l ih =>
    intro d hd c hc
    refine ih (dictInsert d (some k) .pynone) ?_ c hc
    intro c2 hc2
    rcases dictInsert_snd_mem d _ _ c2 hc2 with h | h
    · exact hd c2 h
    · rw [h]
      exact hP

theorem dictRowValues_mem (fieldnames row : List String) (c : CSVCell)
    (hc : c ∈ dictRowValues fieldnames row) :
    (∃ s, c = .str s ∧ s ∈ row) ∨ c = .pynone ∨
    c = .rest (row.drop fieldnames.length) := by
  have hbase : ∀ c2 ∈ (((fieldnames.zip row).foldl
      (fun d kv => dictInsert d (some kv.1) (.str kv.2)) [])).map Prod.snd,
      ∃ s, c2 = CSVCell.str s ∧ s ∈ row := by
    apply foldl_dictInsert_str_mem (fun c2 => ∃ s, c2 = CSVCell.str s ∧ s ∈ row)
    · intro c2 hc2
      simp at hc2
    · intro kv hkv
      exact ⟨kv.2, rfl, (List.of_mem_zip hkv).2⟩
  simp only [dictRowValues, dictReaderRow] at hc
  by_cases h1 : fieldnames.length < row.length
  · rw [if_pos h1] at hc
    rcases dictInsert_snd_mem _ _ _ c hc with h | h
    · exact Or.inl (hbase c h)
    · exact Or.inr (Or.inr h)
  · rw [if_neg h1] at hc
    by_cases h2 : row.length < fieldnames.length
    · rw [if_pos h2] at hc
      refine foldl_dictInsert_pynone_mem
        (fun c2 => (∃ s, c2 = .str s ∧ s ∈ row) ∨ c2 = .pynone ∨
          c2 = .rest (row.drop fieldnames.length))
        (Or.inr (Or.inl rfl)) _ _ (fun c2 hc2 => Or.inl (hbase c2 hc2)) c hc
    · rw [if_neg h2] at hc
      exact Or.inl (hbase c hc)

theorem parseChunk_cell_provenance (hdr : Bool) (rows : List (List String))
    (r : List CSVCell) (c : CSVCell)
    (hr : r ∈ parseChunk hdr rows) (hc : c ∈ r) :
    (∃ s, c = .str s ∧ s ∈ rows.flatten) ∨ c = .pynone ∨
    (∃ l, c = .rest l ∧ ∀ s ∈ l, s ∈ rows.flatten) := by
  cases hdr with
  | false =>
    simp only [parseChunk, Bool.false_eq_true, if_false] at hr
    obtain ⟨row, hrow, rfl⟩ := List.mem_map.1 hr
    obtain ⟨s, hs, rfl⟩ := List.mem_map.1 hc
    exact Or.inl ⟨s, rfl, List.mem_flatten.2 ⟨row, hrow, hs⟩⟩
  | true =>
    cases rows with
    | nil => simp [parseChunk] at hr
    | cons header dataRows =>
      simp only [parseChunk, if_true] at hr
      obtain ⟨row, hrow, rfl⟩ := List.mem_map.1 hr
      have hrow2 : row ∈ dataRows := List.mem_of_mem_filter hrow
      rcases dictRowValues_mem header row c hc with ⟨s, hs1, hs2⟩ | h | h
      · exact Or.inl ⟨s, hs1,
          List.mem_flatten.2 ⟨row, List.mem_cons_of_mem _ hrow2, hs2⟩⟩
      · exact Or.inr (Or.inl h)
      · refine Or.inr (Or.inr ⟨row.drop header.length, h, ?_⟩)
        intro s hsl
        exact List.mem_flatten.2
          ⟨row, List.mem_cons_of_mem _ hrow2, List.drop_subset _ _ hsl⟩

/-! Claim theorems. -/

/-- C3: for every path whose expansion does not exist or is not a regular
file, `validate_path` fails with the not found error; on a coherent
filesystem whose home directory holds no tilde, `read_csv` on a path whose
expansion does not exist fails with that same not found error; and on an
existing regular file `validate_path` returns the expanded path unchanged. -/
theorem validate_path_notFound_spec (fs : FS) (path : String)
    (hh : '~' ∉ fs.home.data) :
    (¬(fs.pathExists (expanduser fs.home path) = true ∧
        fs.isFile (expanduser fs.home path) = true) →
      validate_path fs path = .error (.notFound (expanduser fs.home path))) ∧
    (FS.Coherent fs → fs.pathExists (expanduser fs.home path) = false →
      ∀ hdr, read_csv fs path hdr =
        .error (.notFound (expanduser fs.home path))) ∧
    (fs.pathExists (expanduser fs.home path) = true →
      fs.isFile (expanduser fs.home path) = true →
      validate_path fs path = .ok (expanduser fs.home path)) := by
  refine ⟨validate_path_err fs path, ?_, validate_path_ok fs path⟩
  intro hco hnex hdr
  have hnd : fs.isDir (expanduser fs.home path) = false := by
    cases hd : fs.isDir (expanduser fs.home path) with
    | false => rfl
    | true =>
      have := hco.2.1 _ hd
      rw [hnex] at this
      exact Bool.noConfusion this
  apply read_csv_err_resolve
  have hv : validate_path fs (expanduser fs.home path) =
      .error (.notFound (expanduser fs.home path)) := by
    unfold validate_path
    rw [expanduser_idem fs.home path hh, hnex]
    simp
  unfold resolvePaths
  simp [hnd, hv]

/-- Witness for C3 on a filesystem where nothing exists. -/
theorem validate_path_notFound_spec_witness :
    read_csv fsNone "/nope" true = .error (.notFound "/nope") :=
  ((validate_path_notFound_spec fsNone "/nope" (by decide)).2.1
    ⟨fun p h => by simp [fsNone] at h, fun p h => by simp [fsNone] at h,
      fun p h => by simp [fsNone] at h⟩
    (by decide) true).trans (by decide)

/-- C4: for a directory path, the collected paths are exactly the directory
entries that are regular files with a case insensitive `.csv` extension
(joined to the directory), the collected list is sorted lexicographically, and
when it is empty (in particular for an empty directory) `read_csv` fails with
the empty input error. -/
theorem read_csv_dir_collects_sorted_csv (fs : FS) (dpath : String)
    (hdir : fs.isDir (expanduser fs.home dpath) = true) :
    (∀ q, q ∈ csvPathsOf fs (expanduser fs.home dpath) ↔
      ∃ name ∈ fs.listDir (expanduser fs.home dpath),
        fs.isFile (joinPath (expanduser fs.home dpath) name) = true ∧
        strEndsWith (strLower name) ".csv" = true ∧
        q = joinPath (expanduser fs.home dpath) name) ∧
    List.Sorted strLeR (csvPathsOf fs (expanduser fs.home dpath)) ∧
    (csvPathsOf fs (expanduser fs.home dpath) = [] →
      ∀ hdr, read_csv fs dpath hdr =
        .error (.emptyInput (expanduser fs.home dpath))) := by
  refine ⟨?_, ?_, ?_⟩
  · intro q
    unfold csvPathsOf
    rw [(List.perm_insertionSort strLeR _).mem_iff]
    simp only [List.mem_map, List.mem_filter, Bool.and_eq_true]
    constructor
    · rintro ⟨name, ⟨hmem, hfile, hext⟩, rfl⟩
      exact ⟨name, hmem, hfile, hext, rfl⟩
    · rintro ⟨name, hmem, hfile, hext, rfl⟩
      exact ⟨name, ⟨hmem, hfile, hext⟩, rfl⟩
  · exact List.sorted_insertionSort _ _
  · intro h hdr
    exact read_csv_err_resolve fs dpath hdr _ (resolvePaths_dir_empty fs _ hdir h)

/-- Witness for C4 on an existing empty directory. -/
theorem read_csv_dir_collects_sorted_csv_witness :
    read_csv fsEmptyDir "/data" true = .error (.emptyInput "/data") :=
  ((read_csv_dir_collects_sorted_csv fsEmptyDir "/data" (by decide)).2.2
    (by decide) true).trans (by decide)

/-- C5: on an existing regular file `read_csv` fails with the invalid format
error when the extension is not `.csv` (compared case insensitively, the
comparison the code performs), and with a `.csv` extension it can never
produce that error; in particular a `.txt` file is rejected with the invalid
format error. -/
theorem read_csv_file_requires_csv_extension (fs : FS) (path : String)
    (hdr : Bool) (hh : '~' ∉ fs.home.data)
    (hnd : fs.isDir (expanduser fs.home path) = false)
    (hex : fs.pathExists (expanduser fs.home path) = true)
    (hf : fs.isFile (expanduser fs.home path) = true) :
    (strEndsWith (strLower (expanduser fs.home path)) ".csv" = false →
      read_csv fs path hdr = .error (.invalidFormat (expanduser fs.home path))) ∧
    (strEndsWith (strLower (expanduser fs.home path)) ".csv" = true →
      ∀ q, read_csv fs path hdr ≠ .error (.invalidFormat q)) := by
  constructor
  · intro hncsv
    apply read_csv_err_resolve
    exact resolvePaths_file_badext fs _ hnd
      (validate_path_expanded_ok fs path hh hex hf) hncsv
  · intro hcsv
    exact read_csv_single_csv_no_invalidFormat fs path hdr hh hnd hex hf hcsv

/-- Witness for C5 on a concrete `.txt` file. -/
theorem read_csv_file_requires_csv_extension_witness :
    read_csv fsAB "/data/notes.txt" true =
      .error (.invalidFormat "/data/notes.txt") :=
  ((read_csv_file_requires_csv_extension fsAB "/data/notes.txt" true (by decide)
    (by decide) (by decide) (by decide)).1 (by decide)).trans (by decide)

/-- C1: for a directory, `read_csv` parses each collected CSV file into a
chunk, keeps the non empty chunks in lexicographically sorted filename order
(the order of `csvPathsOf`), and returns the first three columns of their row
wise concatenation as the coordinates and the remaining columns as the
attributes. -/
theorem read_csv_dir_concat_split (fs : FS) (dpath : String) (hdr : Bool)
    (w : Nat)
    (hdir : fs.isDir (expanduser fs.home dpath) = true)
    (hne : csvPathsOf fs (expanduser fs.home dpath) ≠ [])
    (hrect : ∀ p ∈ csvPathsOf fs (expanduser fs.home dpath),
      isRectangular (parseChunk hdr (fs.content p)) = true)
    (hkept : keptChunks fs.content hdr (csvPathsOf fs (expanduser fs.home dpath))
      ≠ [])
    (hw : ∀ c ∈ keptChunks fs.content hdr (csvPathsOf fs (expanduser fs.home dpath)),
      chunkWidth c = w) :
    read_csv fs dpath hdr =
      .ok (⟨((keptChunks fs.content hdr
              (csvPathsOf fs (expanduser fs.home dpath))).flatten).map
            (fun r => r.take 3), min w 3⟩,
        ⟨((keptChunks fs.content hdr
              (csvPathsOf fs (expanduser fs.home dpath))).flatten).map
            (fun r => r.drop 3), w - 3⟩) := by
  obtain ⟨c, cs, hcc⟩ := List.exists_cons_of_ne_nil hkept
  have hwc : chunkWidth c = w := hw c (hcc ▸ List.mem_cons_self c cs)
  have hcs : ∀ c2 ∈ cs, chunkWidth c2 = chunkWidth c := by
    intro c2 hc2
    rw [hwc]
    exact hw c2 (hcc ▸ List.mem_cons_of_mem c hc2)
  rw [read_csv_dir_nonempty fs dpath hdr hdir hne hrect c cs hcc,
    npConcatenate_cons_ok c cs hcs, hcc]
  simp only [sliceCoords, sliceAttrs, hwc]

/-- Witness for C1: a directory whose listing holds `b.csv` before `a.csv`;
the two one row files appear in the result in sorted filename order. -/
theorem read_csv_dir_concat_split_witness :
    read_csv fsAB "/data" true =
      .ok (⟨[[.str "1", .str "2", .str "3"], [.str "4", .str "5", .str "6"]], 3⟩,
        ⟨[[], []], 0⟩) :=
  (read_csv_dir_concat_split fsAB "/data" true 3 (by decide) (by decide)
    (by decide) (by decide) (by decide)).trans (by decide)

/-- C6: with a header, parsing drops exactly the header row; a file whose
chunk has size zero contributes nothing to the chunk list; and when every
resolved file yields a size zero chunk, `read_csv` succeeds with an empty
coordinate array of shape (0, 3) and an empty attribute array of shape
(0, 0). -/
theorem read_csv_header_skip_and_empty_shapes (fs : FS) (dpath : String)
    (hdr : Bool)
    (hdir : fs.isDir (expanduser fs.home dpath) = true)
    (hne : csvPathsOf fs (expanduser fs.home dpath) ≠ []) :
    (∀ (header : List String) (dataRows : List (List String)),
      (∀ r ∈ dataRows, r ≠ ([] : List String)) →
      parseChunk true (header :: dataRows) = dataRows.map (dictRowValues header)) ∧
    (∀ p ps, isRectangular (parseChunk hdr (fs.content p)) = true →
      chunkSize (parseChunk hdr (fs.content p)) = 0 →
      collectChunks fs.content hdr (p :: ps) = collectChunks fs.content hdr ps) ∧
    ((∀ p ∈ csvPathsOf fs (expanduser fs.home dpath),
        isRectangular (parseChunk hdr (fs.content p)) = true ∧
        chunkSize (parseChunk hdr (fs.content p)) = 0) →
      read_csv fs dpath hdr = .ok (⟨[], 3⟩, ⟨[], 0⟩)) := by
  refine ⟨?_, ?_, ?_⟩
  · intro header dataRows hnb
    have hfil : dataRows.filter (fun r => !r.isEmpty) = dataRows :=
      List.filter_eq_self.2 (fun r hr => by simp [hnb r hr])
    show (dataRows.filter (fun r => !r.isEmpty)).map (dictRowValues header) =
      dataRows.map (dictRowValues header)
    rw [hfil]
  · intro p ps hrect hz
    cases hcol : collectChunks fs.content hdr ps with
    | error e => simp [collectChunks, asarray, hrect, hz, hcol]
    | ok chunks => simp [collectChunks, asarray, hrect, hz, hcol]
  · intro hall
    have hk : keptChunks fs.content hdr (csvPathsOf fs (expanduser fs.home dpath))
        = [] := by
      unfold keptChunks
      rw [List.filter_eq_nil_iff]
      intro c hc
      obtain ⟨p, hp, rfl⟩ := List.mem_map.1 hc
      simp [(hall p hp).2]
    rw [read_csv_dir_eval fs dpath hdr hdir hne (fun p hp => (hall p hp).1), hk]

/-- Witness for C6: a directory with one CSV file holding only a header row;
the result is the pair of empty arrays with shapes (0, 3) and (0, 0). -/
theorem read_csv_header_skip_and_empty_shapes_witness :
    read_csv fsHeaderOnly "/data" true = .ok (⟨[], 3⟩, ⟨[], 0⟩) :=
  (read_csv_header_skip_and_empty_shapes fsHeaderOnly "/data" true (by decide)
    (by decide)).2.2 (by decide)

/-- C9: when the kept chunks of a directory read have unequal column counts,
`read_csv` fails with the concatenation error, which is none of the three
specified error kinds; and a successful directory read forces all kept chunks
to share one column count. -/
theorem read_csv_dir_width_mismatch (fs : FS) (dpath : String) (hdr : Bool)
    (hdir : fs.isDir (expanduser fs.home dpath) = true)
    (hne : csvPathsOf fs (expanduser fs.home dpath) ≠ [])
    (hrect : ∀ p ∈ csvPathsOf fs (expanduser fs.home dpath),
      isRectangular (parseChunk hdr (fs.content p)) = true) :
    (∀ c cs, keptChunks fs.content hdr (csvPathsOf fs (expanduser fs.home dpath))
        = c :: cs →
      (∃ c2 ∈ cs, chunkWidth c2 ≠ chunkWidth c) →
      read_csv fs dpath hdr = .error .concatMismatch ∧
      (∀ q, PyErr.concatMismatch ≠ .notFound q) ∧
      (∀ q, PyErr.concatMismatch ≠ .emptyInput q) ∧
      (∀ q, PyErr.concatMismatch ≠ .invalidFormat q)) ∧
    (∀ r, read_csv fs dpath hdr = .ok r →
      ∀ c cs, keptChunks fs.content hdr (csvPathsOf fs (expanduser fs.home dpath))
        = c :: cs →
      ∀ c2 ∈ cs, chunkWidth c2 = chunkWidth c) := by
  constructor
  · intro c cs hk hbad
    refine ⟨?_, fun q h => PyErr.noConfusion h, fun q h => PyErr.noConfusion h,
      fun q h => PyErr.noConfusion h⟩
    rw [read_csv_dir_nonempty fs dpath hdr hdir hne hrect c cs hk,
      npConcatenate_cons_err c cs hbad]
  · intro r hok c cs hk c2 hc2
    by_contra hne2
    rw [read_csv_dir_nonempty fs dpath hdr hdir hne hrect c cs hk,
      npConcatenate_cons_err c cs ⟨c2, hc2, hne2⟩] at hok
    exact Except.noConfusion hok

/-- Witness for C9: a directory with a three column file and a four column
file; `read_csv` fails with the concatenation error. -/
theorem read_csv_dir_width_mismatch_witness :
    read_csv fsMix "/data" true = .error .concatMismatch :=
  (((read_csv_dir_width_mismatch fsMix "/data" true (by decide) (by decide)
      (by decide)).1
    [[.str "1", .str "2", .str "3"]] [[[.str "4", .str "5", .str "6", .str "7"]]]
    (by decide)
    ⟨[[.str "4", .str "5", .str "6", .str "7"]], by decide, by decide⟩)).1

/-- C10: with no reference argument, `read_tractogram` succeeds (passing the
reference `"same"` on to the loader) exactly for validated paths ending in
`.trk` or `.trx`; for any other existing regular file it raises the
`ValueError` demanding a reference image before any loading is attempted. -/
theorem read_tractogram_reference_default (fs : FS) (path : String)
    (hex : fs.pathExists (expanduser fs.home path) = true)
    (hf : fs.isFile (expanduser fs.home path) = true) :
    ((strEndsWith (expanduser fs.home path) ".trk" = true ∨
      strEndsWith (expanduser fs.home path) ".trx" = true) →
      read_tractogram_ref fs path none = .ok (expanduser fs.home path, "same")) ∧
    (strEndsWith (expanduser fs.home path) ".trk" = false →
      strEndsWith (expanduser fs.home path) ".trx" = false →
      read_tractogram_ref fs path none = .error .refRequired) := by
  have hv := validate_path_ok fs path hex hf
  constructor
  · intro hor
    have hcond : (strEndsWith (expanduser fs.home path) ".trk"
        || strEndsWith (expanduser fs.home path) ".trx") = true := by
      rcases hor with h | h <;> simp [h]
    unfold read_tractogram_ref
    rw [hv]
    simp [hcond]
  · intro h1 h2
    unfold read_tractogram_ref
    rw [hv]
    simp [h1, h2]

/-- Witness for C10: a `.trk` file defaults its reference to `same`, a `.nii`
file is rejected before loading. -/
theorem read_tractogram_reference_default_witness :
    read_tractogram_ref fsTrk "/t.trk" none = .ok ("/t.trk", "same") ∧
    read_tractogram_ref fsTrk "/t.nii" none = .error .refRequired :=
  ⟨((read_tractogram_reference_default fsTrk "/t.trk" (by decide) (by decide)).1
      (Or.inl (by decide))).trans (by decide),
    (read_tractogram_reference_default fsTrk "/t.nii" (by decide) (by decide)).2
      (by decide) (by decide)⟩

/-- C7: `read_csv` is a pure function of the filesystem snapshot and its
arguments, so two runs over the same contents agree; in particular the result
does not depend on the order in which the operating system produces the
directory listing, because the collected paths are sorted: replacing the
listing by any permutation of it leaves the result unchanged. -/
theorem read_csv_listing_order_irrelevant (fs : FS) (path : String) (hdr : Bool)
    (l2 : List String)
    (hperm : l2.Perm (fs.listDir (expanduser fs.home path))) :
    read_csv (fs.withListing (expanduser fs.home path) l2) path hdr =
      read_csv fs path hdr := by
  have hld : (fs.withListing (expanduser fs.home path) l2).listDir
      (expanduser fs.home path) = l2 := by
    show (if expanduser fs.home path = expanduser fs.home path then l2
        else fs.listDir (expanduser fs.home path)) = l2
    simp
  have hcsv : csvPathsOf (fs.withListing (expanduser fs.home path) l2)
      (expanduser fs.home path) = csvPathsOf fs (expanduser fs.home path) := by
    unfold csvPathsOf
    simp only [withListing_isFile]
    rw [hld]
    exact insertionSort_strLeR_eq_of_perm ((hperm.filter _).map _)
  unfold read_csv resolvePaths validate_path
  simp only [withListing_home, withListing_pathExists, withListing_isFile,
    withListing_isDir, withListing_content]
  rw [hcsv]

/-- C8: in the single file branch the extension check lowercases the name, so
an existing regular file whose lowercased path ends in `.csv` (for example an
upper case `.CSV` name) is accepted and parsed: the invalid format error is
impossible for it, and with rectangular parsed rows the call succeeds. -/
theorem read_csv_extension_case_insensitive (fs : FS) (path : String) (hdr : Bool)
    (hh : '~' ∉ fs.home.data)
    (hnd : fs.isDir (expanduser fs.home path) = false)
    (hex : fs.pathExists (expanduser fs.home path) = true)
    (hf : fs.isFile (expanduser fs.home path) = true)
    (hcsv : strEndsWith (strLower (expanduser fs.home path)) ".csv" = true) :
    (∀ q, read_csv fs path hdr ≠ .error (.invalidFormat q)) ∧
    (isRectangular (parseChunk hdr (fs.content (expanduser fs.home path))) = true →
      ∃ r, read_csv fs path hdr = .ok r) := by
  constructor
  · exact read_csv_single_csv_no_invalidFormat fs path hdr hh hnd hex hf hcsv
  · intro hrect
    have ha := asarray_ok _ hrect
    by_cases hz : chunkSize (parseChunk hdr (fs.content (expanduser fs.home path))) = 0
    · exact ⟨_, by
        rw [read_csv_single_file_ok fs path hdr hh hnd hex hf hcsv _ ha, if_pos hz]⟩
    · exact ⟨_, by
        rw [read_csv_single_file_ok fs path hdr hh hnd hex hf hcsv _ ha, if_neg hz]⟩

/-- Witness for C8 on a concrete file named `points.CSV`: the invalid format
error does not occur, it is accepted and parsed. -/
theorem read_csv_extension_case_insensitive_witness :
    read_csv fsUpper "/data/points.CSV" true ≠
      .error (.invalidFormat "/data/points.CSV") :=
  (read_csv_extension_case_insensitive fsUpper "/data/points.CSV" true
    (by decide) (by decide) (by decide) (by decide) (by decide)).1
    "/data/points.CSV"

/-- Counterexample for C2: `read_csv` succeeds on a CSV file whose data row
holds the words `foo`, `bar`, `baz`, and returns the literal cell string
`foo` inside the coordinates array; that cell is not a numeric value, so the
returned arrays are not numeric. -/
theorem read_csv_not_numeric_counterexample :
    read_csv fsFoo "/f.csv" true =
      .ok (⟨[[.str "foo", .str "bar", .str "baz"]], 3⟩, ⟨[[]], 0⟩) ∧
    (CSVCell.str "foo") ∈ [[CSVCell.str "foo", .str "bar", .str "baz"]].flatten ∧
    CSVCell.isNumericLiteral (.str "foo") = false := by
  refine ⟨by decide, by decide, by decide⟩

/-- C2 amended: for every successful call, `read_csv` returns the parsed CSV
values with no numeric conversion.  The coordinate and attribute rows are
exactly the first three columns and the remaining columns of the rows of the
kept per file chunks (the parses of the resolved files in file order, size
zero chunks dropped), and every cell of a per file chunk is a cell string
occurring verbatim in that file, the `None` padding of a data row shorter
than the header, or the leftover field list of a longer one — so the returned
values are numeric only when the file text is. -/
theorem read_csv_values_unconverted (fs : FS) (path : String) (hdr : Bool)
    (coords attrs : NDArray)
    (hok : read_csv fs path hdr = .ok (coords, attrs)) :
    (∀ csv_paths, resolvePaths fs (expanduser fs.home path) = .ok csv_paths →
      coords.rows = ((keptChunks fs.content hdr csv_paths).flatten).map
        (fun r => r.take 3) ∧
      attrs.rows = ((keptChunks fs.content hdr csv_paths).flatten).map
        (fun r => r.drop 3)) ∧
    (∀ p r c, r ∈ parseChunk hdr (fs.content p) → c ∈ r →
      (∃ s, c = .str s ∧ s ∈ (fs.content p).flatten) ∨ c = .pynone ∨
      (∃ l, c = .rest l ∧ ∀ s ∈ l, s ∈ (fs.content p).flatten)) := by
  constructor
  · intro csv_paths hres
    simp only [read_csv, hres] at hok
    cases hc : collectChunks fs.content hdr csv_paths with
    | error e =>
      rw [hc] at hok
      exact Except.noConfusion hok
    | ok chunks =>
      obtain ⟨hrect, hkept⟩ := collectChunks_ok_inv fs.content hdr csv_paths chunks hc
      simp only [hc] at hok
      subst hkept
      cases hkc : keptChunks fs.content hdr csv_paths with
      | nil =>
        simp only [hkc, List.isEmpty_nil, if_true] at hok
        injection hok with hok
        injection hok with h1 h2
        rw [← h1, ← h2]
        exact ⟨rfl, rfl⟩
      | cons c cs =>
        simp only [hkc, List.isEmpty_cons, if_false] at hok
        cases hn : npConcatenate (c :: cs) with
        | error e =>
          rw [hn] at hok
          exact Except.noConfusion hok
        | ok data =>
          have hdata : data.rows = (c :: cs).flatten := npConcatenate_ok_inv _ data hn
          rw [hn] at hok
          injection hok with hok
          injection hok with h1 h2
          rw [← h1, ← h2]
          unfold sliceCoords sliceAttrs
          rw [hdata]
          exact ⟨rfl, rfl⟩
  · intro p r c hr hc
    exact parseChunk_cell_provenance hdr (fs.content p) r c hr hc

/-- Witness for C2 amended at the concrete file of `fsFoo`: its successful
read returns exactly the take 3 and drop 3 splits of its parsed chunk, whose
only cells are the verbatim non numeric words. -/
theorem read_csv_values_unconverted_witness :
    (⟨[[CSVCell.str "foo", .str "bar", .str "baz"]], 3⟩ : NDArray).rows =
      ((keptChunks fsFoo.content true ["/f.csv"]).flatten).map
        (fun r => r.take 3) ∧
    (⟨[[]], 0⟩ : NDArray).rows =
      ((keptChunks fsFoo.content true ["/f.csv"]).flatten).map
        (fun r => r.drop 3) :=
  (read_csv_values_unconverted fsFoo "/f.csv" true
    ⟨[[.str "foo", .str "bar", .str "baz"]], 3⟩ ⟨[[]], 0⟩ (by decide)).1
    ["/f.csv"] (by decide)

/-- Witness for C7: permuting the listing of the concrete directory of
`fsAB` leaves the result of `read_csv` unchanged. -/
theorem read_csv_listing_order_irrelevant_witness :
    read_csv (fsAB.withListing "/data" ["a.csv", "notes.txt", "b.csv"]) "/data" true =
      read_csv fsAB "/data" true :=
  read_csv_listing_order_irrelevant fsAB "/data" true
    ["a.csv", "notes.txt", "b.csv"] (by decide)

end Tractome
